import Mathlib

/-!
Verification of the Job-Finder aggregation / caching / match-explanation
pipeline.  The JavaScript sources are shallowly embedded: JS strings that may
be `undefined`/`null`/`''` (all falsy) are modelled as `Option String` with
`none` for a missing field, and explicit truthiness helpers mirror the `||`
and `if (x)` idioms; JS numbers that matter here (scores, experience years)
are modelled as rationals.
-/

/-- Truthiness of a JS string value: `undefined`, `null` and `''` are falsy. -/
def jsTruthy (v : Option String) : Bool :=
  match v with
  | none => false
  | some s => !s.isEmpty

/-- JS `a || b` on string values. -/
def jsOrOpt (a b : Option String) : Option String :=
  if jsTruthy a then a else b

/-- JS `a || b` where the fallback is a definitely-present string. -/
def jsOrStr (a : Option String) (b : String) : String :=
  if jsTruthy a then a.getD "" else b

/-- JS `String.prototype.toLowerCase`. -/
def jsLower (s : String) : String :=
  ⟨s.data.map Char.toLower⟩

/-- JS `String.prototype.trim`. -/
def jsTrim (s : String) : String :=
  s.trim

/-- JS `haystack.includes(needle)` (substring containment). -/
def jsIncludes (s sub : String) : Bool :=
  sub.isEmpty || (s.splitOn sub).length ≥ 2

/-- JS `[ ... ].filter(Boolean)` over string-valued entries. -/
def jsFilterTruthy (l : List (Option String)) : List String :=
  (l.filterMap id).filter (fun s => !s.isEmpty)

/-- JS `Array.prototype.join(' ')`. -/
def joinSpace (l : List String) : String :=
  String.intercalate " " l

/-- The LLM-normalized sub-object of a job (jobNormalizationAgent output). -/
structure NormalizedFields where
  title : Option String := none
  required_skills : List String := []
  nice_to_have : List String := []
  level : Option String := none
  work_mode : Option String := none
  summary : Option String := none
deriving Repr, DecidableEq

/-- A raw job as produced by the JSearch datasource (plus the fields the
cache-key derivation probes for).  `none` models an absent or empty field. -/
structure Job where
  id : Option String := none
  job_id : Option String := none
  externalId : Option String := none
  url : Option String := none
  apply_link : Option String := none
  title : Option String := none
  company : Option String := none
  location : Option String := none
  postedAt : Option String := none
  description : Option String := none
  remote : Bool := false
  country : Option String := none
  countryCode : Option String := none
  source : Option String := none
  summary : Option String := none
  work_mode : Option String := none
  normalized : Option NormalizedFields := none
deriving Repr, DecidableEq

/-- Composite fallback of `getJobCacheKey` (jobController.js:135):
`` `${title||'unknown'}|${company||'unknown'}|${location||'unknown'}|${postedAt||''}` ``. -/
def compositeCacheKey (job : Job) : String :=
  jsOrStr job.title "unknown" ++ "|" ++ jsOrStr job.company "unknown" ++ "|" ++
    jsOrStr job.location "unknown" ++ "|" ++ jsOrStr job.postedAt ""

/-- Stable job identifier (jobController.js:127-137):
`job.id || job.job_id || job.externalId || job.url || job.apply_link || composite`. -/
def getJobCacheKey (job : Job) : String :=
  jsOrStr (jsOrOpt job.id (jsOrOpt job.job_id (jsOrOpt job.externalId
    (jsOrOpt job.url job.apply_link)))) (compositeCacheKey job)

/-- Redis namespace for normalized jobs (jobController.js:156-158). -/
def getNormalizedJobRedisKey (cacheKey : String) : String :=
  "job:normalized:" ++ cacheKey

/-- Redis namespace for match explanations (jobController.js:166-168). -/
def getMatchRedisKey (profileKey jobKey : String) : String :=
  "match:" ++ profileKey ++ ":" ++ jobKey

/-- The job identity used by `normalizeJobWithCache` (jobController.js:220). -/
def normalizationJobIdentity (job : Job) : String :=
  getJobCacheKey job

/-- The job component of the match cache key used by `getMatchOrSchedule`
(jobController.js:286). -/
def matchJobIdentity (rawJob : Job) : String :=
  getJobCacheKey rawJob

/-- The deduplication key of `uniqueById` (jobAggregator, part_007:18):
`` job.id || `${title||'unknown'}-${company||'unknown'}-${location||'na'}-${result.length}` ``,
where `n` is the length of the output built so far. -/
def uniqueKey (job : Job) (n : Nat) : String :=
  jsOrStr job.id
    (jsOrStr job.title "unknown" ++ "-" ++ jsOrStr job.company "unknown" ++ "-" ++
      jsOrStr job.location "na" ++ "-" ++ toString n)

/-- Worker of `uniqueById`: `seen` is the set of already-admitted keys and
`result` the output built so far (its length feeds the composite ordinal). -/
def uniqueByIdGo (seen : List String) (result : List Job) : List (Option Job) → List Job
  | [] => result
  | none :: rest => uniqueByIdGo seen result rest
  | some j :: rest =>
      let key := uniqueKey j result.length
      if key ∈ seen then uniqueByIdGo seen result rest
      else uniqueByIdGo (key :: seen) (result ++ [j]) rest

/-- Deduplication by job identity (jobAggregator, part_007:12-25).  A `none`
entry models a falsy array element, skipped by `if (!job) continue`. -/
def uniqueById (jobs : List (Option Job)) : List Job :=
  uniqueByIdGo [] [] jobs

/-- `uniqueById` over a list of definitely-present jobs. -/
def uniqueByIdL (jobs : List Job) : List Job :=
  uniqueById (jobs.map some)

/-- One processed entry of the `uniqueById` loop: the job, the value of
`result.length` at the moment its key was computed, and whether it was kept. -/
structure TraceEntry where
  job : Job
  slot : Nat
  kept : Bool
deriving Repr, DecidableEq

/-- Instrumented version of the `uniqueById` loop recording each processed job. -/
def uniqueTraceGo (seen : List String) (len : Nat) : List (Option Job) → List TraceEntry
  | [] => []
  | none :: rest => uniqueTraceGo seen len rest
  | some j :: rest =>
      let key := uniqueKey j len
      if key ∈ seen then { job := j, slot := len, kept := false } :: uniqueTraceGo seen len rest
      else { job := j, slot := len, kept := true } :: uniqueTraceGo (key :: seen) (len + 1) rest

/-- The full processing trace of `uniqueById`. -/
def uniqueTrace (jobs : List (Option Job)) : List TraceEntry :=
  uniqueTraceGo [] 0 jobs

/-- The identity assigned to a processed entry. -/
def entryKey (e : TraceEntry) : String :=
  uniqueKey e.job e.slot

/-- The identities assigned to the elements of a `uniqueById` output list
(the composite ordinal of an output element is its output position). -/
def outKeys (l : List Job) : List String :=
  (l.enum).map (fun p => uniqueKey p.2 p.1)

/-- Keyword tables of preferences.js:1-3. -/
def REMOTE_KEYWORDS : List String :=
  ["remote", "work from home", "wfh", "anywhere", "distributed"]

/-- Hybrid vocabulary (preferences.js:2). -/
def HYBRID_KEYWORDS : List String :=
  ["hybrid", "flexible location", "split between"]

/-- Onsite vocabulary (preferences.js:3). -/
def ONSITE_KEYWORDS : List String :=
  ["on-site", "onsite", "on site", "office-based"]

/-- A JS value that may be missing, a string, or an array of strings
(the shapes `normalizeStringArray` accepts). -/
inductive JsVal where
  | missing
  | str (s : String)
  | list (l : List String)
deriving Repr, DecidableEq

/-- JS truthiness of a `JsVal`: note that an empty array is truthy. -/
def jsValTruthy : JsVal → Bool
  | .missing => false
  | .str s => !s.isEmpty
  | .list _ => true

/-- JS `a || b` over `JsVal`s. -/
def jsValOr (a b : JsVal) : JsVal :=
  if jsValTruthy a then a else b

/-- Split on the delimiter class `[,;/]|\n` of preferences.js:14. -/
def splitDelims (s : String) : List String :=
  s.split (fun c => c = ',' || c = ';' || c = '/' || c = '\n')

/-- Coerces a raw preference field into a trimmed list of non-empty strings
(preferences.js:5-19). -/
def normalizeStringArray : JsVal → List String
  | .missing => []
  | .list l => (l.map jsTrim).filter (fun s => !s.isEmpty)
  | .str s => ((splitDelims s).map jsTrim).filter (fun s => !s.isEmpty)

/-- Order-preserving first-occurrence deduplication, as JS
`Array.from(new Set(...))` behaves. -/
def dedupFirstGo (seen : List String) : List String → List String
  | [] => []
  | x :: xs => if x ∈ seen then dedupFirstGo seen xs else x :: dedupFirstGo (x :: seen) xs

/-- Lower-cases, drops empties, and removes duplicates keeping first
occurrences (preferences.js:21-29). -/
def toLowerUnique (values : List String) : List String :=
  dedupFirstGo [] ((values.map jsLower).filter (fun s => !s.isEmpty))

/-- First candidate whose trimmed value is truthy (preferences.js:31-39). -/
def firstTruthy : List (Option String) → Option String
  | [] => none
  | c :: rest =>
      match c with
      | none => firstTruthy rest
      | some s => if (jsTrim s).isEmpty then firstTruthy rest else some (jsTrim s)

/-- Whether a job's work mode satisfies a stated preference
(preferences.js:41-53); a missing preference or mode always satisfies. -/
def workModeMatchesPreference (preference mode : Option String) : Bool :=
  if !jsTruthy preference || !jsTruthy mode then true
  else
    let p := preference.getD ""
    let m := mode.getD ""
    if p = "remote" then m = "remote" || m = "hybrid"
    else if p = "hybrid" then m = "hybrid"
    else if p = "onsite" || p = "on-site" then m = "onsite" || m = "hybrid"
    else true

/-- The text fields scanned for work-mode vocabulary and preference keywords
(preferences.js:61-68 and 159-166). -/
def jobTextParts (nj raw : Option Job) : List (Option String) :=
  [nj.bind (fun j => j.normalized.bind (fun n => n.summary)),
   nj.bind (fun j => j.summary),
   nj.bind (fun j => j.description),
   raw.bind (fun j => j.description),
   nj.bind (fun j => j.title),
   raw.bind (fun j => j.title)]

/-- Joined, lower-cased job text. -/
def jobText (nj raw : Option Job) : String :=
  jsLower (joinSpace (jsFilterTruthy (jobTextParts nj raw)))

/-- Work-mode inference (preferences.js:55-85): prefer the normalized
`work_mode`, else scan the job text for remote/hybrid/onsite vocabulary. -/
def inferWorkMode (nj raw : Option Job) : Option String :=
  let normalizedMode :=
    jsOrOpt (nj.bind (fun j => j.normalized.bind (fun n => n.work_mode)))
      (nj.bind (fun j => j.work_mode))
  if jsTruthy normalizedMode then some (jsLower (normalizedMode.getD ""))
  else
    let text := jobText nj raw
    if text.isEmpty then none
    else if REMOTE_KEYWORDS.any (fun k => jsIncludes text k) then some "remote"
    else if HYBRID_KEYWORDS.any (fun k => jsIncludes text k) then some "hybrid"
    else if ONSITE_KEYWORDS.any (fun k => jsIncludes text k) then some "onsite"
    else none

/-- Derived preference signal set (preferences.js:118-128). -/
structure PreferenceSignals where
  workMode : Option String := none
  workModes : List String := []
  locations : List String := []
  locationsOriginal : List String := []
  industries : List String := []
  industriesOriginal : List String := []
  targetCompanies : List String := []
  targetCompaniesOriginal : List String := []
  interestKeywords : List String := []
deriving Repr, DecidableEq

/-- The profile fields consumed by the scoring pipeline.  Fields fed to
`normalizeStringArray` keep the loose string-or-array JS shape. -/
structure Profile where
  skills : List String := []
  experience_years : Option ℚ := none
  preferred_locations : List String := []
  roles : List String := []
  interests : JsVal := .missing
  domains : JsVal := .missing
  preferred_industries : JsVal := .missing
  preference_industries : JsVal := .missing
  target_companies : JsVal := .missing
  preference_target_companies : JsVal := .missing
  preference_work_modes : JsVal := .missing
  preference_work_mode : Option String := none
  preferred_work_mode : Option String := none
  inferred_work_mode_preference : Option String := none
  inferred_focus_area : JsVal := .missing
deriving DecidableEq

/-- Builds the preference signal set from a profile (preferences.js:87-129). -/
def buildPreferenceSignals (profile : Profile) : PreferenceSignals :=
  let industriesList := normalizeStringArray
    (jsValOr profile.preferred_industries (jsValOr profile.preference_industries profile.domains))
  let companiesList := normalizeStringArray
    (jsValOr profile.target_companies profile.preference_target_companies)
  let locationList := normalizeStringArray (.list profile.preferred_locations)
  let interestsList := normalizeStringArray profile.interests
  let focusAreaList := normalizeStringArray profile.inferred_focus_area
  let allInterestKeywords := toLowerUnique
    (interestsList ++ industriesList ++ focusAreaList ++ profile.roles)
  let preferredWorkModeList := normalizeStringArray profile.preference_work_modes
  let legacyWorkMode := firstTruthy
    [profile.preference_work_mode, profile.preferred_work_mode,
     profile.inferred_work_mode_preference]
  let resolvedWorkModes :=
    if preferredWorkModeList ≠ [] then preferredWorkModeList
    else match legacyWorkMode with
      | some m => [m]
      | none => []
  let primaryWorkMode :=
    match resolvedWorkModes with
    | [] => none
    | m :: _ => some (jsLower m)
  { workMode := primaryWorkMode
    workModes := toLowerUnique resolvedWorkModes
    locations := toLowerUnique locationList
    locationsOriginal := locationList
    industries := toLowerUnique industriesList
    industriesOriginal := industriesList
    targetCompanies := toLowerUnique companiesList
    targetCompaniesOriginal := companiesList
    interestKeywords := allInterestKeywords }

/-- Positive match flags of the evaluator (preferences.js:141-147). -/
structure MatchFlags where
  workMode : Bool := false
  company : Bool := false
  industry : Bool := false
  interests : Bool := false
  location : Bool := false
deriving Repr, DecidableEq

/-- Mismatch flags of the evaluator (preferences.js:148-152). -/
structure MismatchFlags where
  workMode : Bool := false
  location : Bool := false
  industry : Bool := false
deriving Repr, DecidableEq

/-- Result of `evaluateJobAgainstPreferences` (preferences.js:238-244). -/
structure EvalResult where
  adjustment : Int
  exclude : Bool
  «matches» : MatchFlags
  mismatches : MismatchFlags
  workMode : Option String := none
deriving Repr, DecidableEq

/-- Work-mode scoring block of the evaluator (preferences.js:173-187):
yields the adjustment delta, the match flag and the mismatch flag. -/
def workModeSection (signals : PreferenceSignals) (workMode : Option String) :
    Int × Bool × Bool :=
  if jsTruthy signals.workMode then
    if jsTruthy workMode then
      if workModeMatchesPreference signals.workMode workMode then (12, true, false)
      else (if signals.workMode = some "remote" then -24 else -18, false, true)
    else if signals.workMode = some "remote" then (-14, false, true)
    else (0, false, false)
  else (0, false, false)

/-- Location scoring block of the evaluator (preferences.js:189-209). -/
def locationSection (signals : PreferenceSignals) (workMode : Option String)
    (jobLocation : String) : Int × Bool × Bool :=
  if signals.locations.length ≠ 0 then
    let normalizedLocation := if jobLocation.isEmpty then "" else jsTrim jobLocation
    let locationMatches := signals.locations.any (fun loc => jsIncludes normalizedLocation loc)
    let remoteFriendly :=
      jsIncludes normalizedLocation "remote" || jsIncludes normalizedLocation "anywhere" ||
        workMode = some "remote" || workMode = some "hybrid"
    if locationMatches then (6, true, false)
    else if normalizedLocation.isEmpty then (-2, false, false)
    else if remoteFriendly then (if signals.workMode = some "remote" then -2 else -4, false, false)
    else (if signals.workMode = some "remote" then -14 else -10, false, true)
  else (0, false, false)

/-- Target-company scoring block of the evaluator (preferences.js:211-217). -/
def companySection (signals : PreferenceSignals) (jobCompany : String) : Int × Bool :=
  if signals.targetCompanies.length ≠ 0 && !jobCompany.isEmpty then
    if signals.targetCompanies.any (fun c => jsIncludes jobCompany c) then (15, true)
    else (0, false)
  else (0, false)

/-- Industry scoring block of the evaluator (preferences.js:219-228). -/
def industrySection (signals : PreferenceSignals) (text : String) : Int × Bool × Bool :=
  if signals.industries.length ≠ 0 && !text.isEmpty then
    if signals.industries.any (fun i => jsIncludes text i) then (8, true, false)
    else (-6, false, true)
  else (0, false, false)

/-- Interest scoring block of the evaluator (preferences.js:230-236); only
consulted when the industry block did not already match. -/
def interestSection (signals : PreferenceSignals) (industryMatched : Bool)
    (text : String) : Int × Bool :=
  if !industryMatched && signals.interestKeywords.length ≠ 0 && !text.isEmpty then
    if signals.interestKeywords.any (fun k => jsIncludes text k) then (5, true)
    else (0, false)
  else (0, false)

/-- Scores a job against a profile's preference signals
(preferences.js:131-245).  `exclude` is never set after its initialization. -/
def evaluateJobAgainstPreferences (nj raw : Option Job)
    (signals : Option PreferenceSignals) : EvalResult :=
  match signals with
  | none =>
      { adjustment := 0, exclude := false, «matches» := {}, mismatches := {}, workMode := none }
  | some s =>
      let jobCompany := jsLower (jsOrStr (jsOrOpt (nj.bind (fun j => j.company))
        (raw.bind (fun j => j.company))) "")
      let jobLocation := jsLower (jsOrStr (jsOrOpt (nj.bind (fun j => j.location))
        (raw.bind (fun j => j.location))) "")
      let text := jobText nj raw
      let workMode := inferWorkMode nj raw
      let w := workModeSection s workMode
      let l := locationSection s workMode jobLocation
      let c := companySection s jobCompany
      let i := industrySection s text
      let k := interestSection s i.2.1 text
      { adjustment := w.1 + l.1 + c.1 + i.1 + k.1
        exclude := false
        «matches» := ⟨w.2.1, c.2, i.2.1, k.2, l.2.1⟩
        mismatches := ⟨w.2.2, l.2.2, i.2.2⟩
        workMode := workMode }

/-- JS `Math.round`: round half up. -/
def jsRound (q : ℚ) : Int :=
  ⌊q + 1 / 2⌋

/-- JS `Math.round(x * 10) / 10` (one-decimal rounding of detail entries). -/
def jsRound10 (q : ℚ) : ℚ :=
  (jsRound (q * 10) : ℚ) / 10

/-- Experience-level block of `computeBaseScore`
(matchExplanationAgent.js:143-161): one band, keyed by the job's normalized
level, may award 20 points. -/
def experiencePoints (jobLevel : Option String) (profileExp : ℚ) : ℚ :=
  if jobLevel = some "intern" ∧ profileExp < 2 then 20
  else if jobLevel = some "junior" ∧ 1 / 2 ≤ profileExp ∧ profileExp < 3 then 20
  else if jobLevel = some "mid" ∧ 2 ≤ profileExp ∧ profileExp < 5 then 20
  else if jobLevel = some "senior" ∧ 4 ≤ profileExp then 20
  else if jobLevel = some "lead" ∧ 6 ≤ profileExp then 20
  else 0

/-- Modelled from the spec: the experience band named by a job level
(section 4.4 — intern: under 2y; junior: half a year up to 3; mid: 2 up to 5;
senior: at least 4; lead: at least 6). -/
def specExperienceBand (jobLevel : Option String) (profileExp : ℚ) : Bool :=
  if jobLevel = some "intern" then decide (profileExp < 2)
  else if jobLevel = some "junior" then decide (1 / 2 ≤ profileExp ∧ profileExp < 3)
  else if jobLevel = some "mid" then decide (2 ≤ profileExp ∧ profileExp < 5)
  else if jobLevel = some "senior" then decide (4 ≤ profileExp)
  else if jobLevel = some "lead" then decide (6 ≤ profileExp)
  else false

/-- Options object of `computeBaseScore` (matchExplanationAgent.js:106-111). -/
structure ScoreOptions where
  rawJob : Option Job := none
  includeDetails : Bool := false
  preferenceSignals : Option PreferenceSignals := none

/-- The `details` breakdown of `computeBaseScore` (matchExplanationAgent.js:113-120). -/
structure ScoreDetails where
  skills : ℚ := 0
  niceToHave : ℚ := 0
  experience : ℚ := 0
  location : ℚ := 0
  workMode : ℚ := 0
  preferenceAdjustment : ℚ := 0
deriving Repr, DecidableEq

/-- Possible shapes of the `computeBaseScore` return value: a plain number,
the `{score: 0, excluded: true, details}` short-circuit, or the detailed
object with `excluded: false`. -/
inductive BaseScoreResult where
  | plain (score : Int)
  | detailedExcluded (score : Int) (details : ScoreDetails)
  | detailed (score : Int) (details : ScoreDetails) (signals : PreferenceSignals)
      (inferredWorkMode : Option String)
deriving DecidableEq

/-- The score field of any `computeBaseScore` result shape. -/
def BaseScoreResult.score : BaseScoreResult → Int
  | .plain s => s
  | .detailedExcluded s _ => s
  | .detailed s _ _ _ => s

/-- Whether a `computeBaseScore` result carries `excluded: true`. -/
def BaseScoreResult.excludedFlag : BaseScoreResult → Bool
  | .detailedExcluded _ _ => true
  | _ => false

/-- Skill lists of `computeBaseScore`, lower-cased (matchExplanationAgent.js:123-125). -/
def jobRequiredSkills (job : Job) : List String :=
  ((job.normalized.map (fun n => n.required_skills)).getD []).map jsLower

/-- Lower-cased nice-to-have list (matchExplanationAgent.js:125). -/
def jobNiceToHave (job : Job) : List String :=
  ((job.normalized.map (fun n => n.nice_to_have)).getD []).map jsLower

/-- Bidirectional substring skill match (matchExplanationAgent.js:127-132). -/
def skillMatches (profileSkills : List String) (s : String) : Bool :=
  profileSkills.any (fun ps => jsIncludes ps s || jsIncludes s ps)

/-- First comma segment of a location string (`jobLocation.split(',')[0]`). -/
def headSegment (s : String) : String :=
  (s.splitOn ",").headD ""

/-- Body of `computeBaseScore` (matchExplanationAgent.js:106-213) with the
preference evaluator's verdict `ev` passed in; `computeBaseScore` itself
instantiates `ev` with the actual `evaluateJobAgainstPreferences` result. -/
def computeBaseScoreWithEval (profile : Profile) (job : Job) (opts : ScoreOptions)
    (ev : EvalResult) : BaseScoreResult :=
  let profileSkills := profile.skills.map jsLower
  let requiredSkills := jobRequiredSkills job
  let niceToHave := jobNiceToHave job
  let matchedRequired := (requiredSkills.filter (skillMatches profileSkills)).length
  let matchedNice := (niceToHave.filter (skillMatches profileSkills)).length
  let requiredPoints : ℚ :=
    if requiredSkills.length > 0 then
      (matchedRequired : ℚ) / (requiredSkills.length : ℚ) * 30
    else 0
  let nicePoints : ℚ := (matchedNice : ℚ) / (max niceToHave.length 1 : ℚ) * 10
  let profileExp : ℚ := (profile.experience_years).getD 0
  let jobLevel := job.normalized.bind (fun n => n.level)
  let expPoints := experiencePoints jobLevel profileExp
  let jobLocation := jsLower (jsOrStr job.location "")
  let preferredLocations := profile.preferred_locations.map jsLower
  let locPoints : ℚ :=
    if jsIncludes jobLocation "remote" &&
        (preferredLocations.contains "remote" || preferredLocations.isEmpty) then 15
    else if preferredLocations.any
        (fun loc => jsIncludes jobLocation loc || jsIncludes loc (headSegment jobLocation)) then 15
    else 0
  let workMode := job.normalized.bind (fun n => n.work_mode)
  let preferredMode := profile.inferred_work_mode_preference
  let wmPoints : ℚ :=
    if jsTruthy workMode && jsTruthy preferredMode && workMode == preferredMode then 15
    else if !jsTruthy preferredMode then 10
    else 0
  let details : ScoreDetails :=
    { skills := if requiredSkills.length > 0 then jsRound10 requiredPoints else 0
      niceToHave := jsRound10 nicePoints
      experience := expPoints
      location := locPoints
      workMode := wmPoints
      preferenceAdjustment := 0 }
  if ev.exclude then
    if opts.includeDetails then
      .detailedExcluded 0 { details with preferenceAdjustment := (ev.adjustment : ℚ) }
    else .plain 0
  else
    let score : ℚ :=
      50 + requiredPoints + nicePoints + expPoints + locPoints + wmPoints + (ev.adjustment : ℚ)
    let finalScore : Int := min 100 (max 0 (jsRound score))
    if opts.includeDetails then
      .detailed finalScore
        { details with preferenceAdjustment := jsRound10 (ev.adjustment : ℚ) }
        (opts.preferenceSignals.getD (buildPreferenceSignals profile))
        (inferWorkMode (some job) opts.rawJob)
    else .plain finalScore

/-- The preference signals `computeBaseScore` uses: the provided ones or the
ones built from the profile (matchExplanationAgent.js:185). -/
def scoreSignals (profile : Profile) (opts : ScoreOptions) : PreferenceSignals :=
  opts.preferenceSignals.getD (buildPreferenceSignals profile)

/-- Deterministic base score (matchExplanationAgent.js:106-213). -/
def computeBaseScore (profile : Profile) (job : Job) (opts : ScoreOptions) :
    BaseScoreResult :=
  computeBaseScoreWithEval profile job opts
    (evaluateJobAgainstPreferences (some job) opts.rawJob (some (scoreSignals profile opts)))

/-- Abstract Redis client state (config/redis.js, part_006).  `connectResult`
is the outcome `client.connect()` would have (its rejection is caught by
`ensureConnection`); `store` is the current key/value content; `parseResult`
is the outcome of `JSON.parse` on a stored payload (its throw is caught);
`stringify` is `JSON.stringify`. -/
structure RedisClient (α : Type) where
  isOpen : Bool
  connectResult : Except String Unit
  store : String → Option String
  parseResult : String → Except String α
  stringify : α → String

/-- Whether an open connection can be (or already is) established
(part_006:24-36); a failed `connect` is caught and reported as `false`. -/
def ensureConnection {α : Type} (c : RedisClient α) : Bool :=
  if c.isOpen then true
  else
    match c.connectResult with
    | .ok _ => true
    | .error _ => false

/-- Cache read (part_006:38-52): soft-fails to `none` on a falsy key, an
unavailable connection, a missing value, or an unparseable payload. -/
def getJson {α : Type} (c : RedisClient α) (key : String) : Option α :=
  if key.isEmpty then none
  else if !ensureConnection c then none
  else
    match c.store key with
    | none => none
    | some raw =>
        if raw.isEmpty then none
        else
          match c.parseResult raw with
          | .ok v => some v
          | .error _ => none

/-- Cache write (part_006:54-66): returns `false` on a falsy key or an
unavailable connection, otherwise stores the payload and returns `true`.
The `ttlSeconds` argument only selects the expiring form of `SET`. -/
def setJson {α : Type} (c : RedisClient α) (key : String) (value : α)
    (ttlSeconds : Option ℚ) : Bool × RedisClient α :=
  if key.isEmpty then (false, c)
  else if !ensureConnection c then (false, c)
  else
    let _ := ttlSeconds
    (true, { c with store := fun k => if k = key then some (c.stringify value) else c.store k })

/-- Cache delete (part_006:68-75). -/
def deleteKey {α : Type} (c : RedisClient α) (key : String) : Bool × RedisClient α :=
  if key.isEmpty then (false, c)
  else if !ensureConnection c then (false, c)
  else (true, { c with store := fun k => if k = key then none else c.store k })

/-- Status carried by a cached match entry. -/
inductive MatchStatus where
  | pending
  | ready
deriving Repr, DecidableEq

/-- Program counter of one `getMatchOrSchedule` call for a fixed match key,
with a suspension point at each await (jobController.js:280-326): the call
reads the cache, resumes on the observed value, possibly awaits the
placeholder write, and finally runs the synchronous pending-set check. -/
inductive ProcPC where
  | start
  | observed (v : Option MatchStatus)
  | toWrite
  | toGuard
  | finished
deriving Repr, DecidableEq

/-- Shared state for one match cache key: the cached entry's status, whether
the key sits in the in-process `pendingMatchComputations` set, the number of
`scheduleMatchExplanation` calls issued so far, and the program counters of
the outstanding `getMatchOrSchedule` calls. -/
structure Config where
  cache : Option MatchStatus
  inflight : Bool
  schedCount : Nat
  procs : List ProcPC
deriving Repr, DecidableEq

/-- Interleaving actions: `read` resolves a `getJson`, `act` runs the
synchronous branch on an observed value (jobController.js:291-303 and the
placeholder construction), `write` lands the placeholder `setJson`
(jobController.js:308), `guard` runs the pending-set check-and-schedule
(jobController.js:315-322; also part of `act` for a cached pending entry,
jobController.js:297-300), and `bgComplete` finishes a scheduled background
computation (jobController.js:262-277), removing the key from the pending
set in its `finally` block. -/
inductive SchedAction where
  | read
  | act (v : Option MatchStatus)
  | write
  | guard
  | bgComplete (ok : Bool)
deriving Repr, DecidableEq

/-- One interleaving step; `none` when the action is not enabled. -/
def stepF (c : Config) : SchedAction → Option Config
  | .read =>
      if ProcPC.start ∈ c.procs then
        some { c with procs := ProcPC.observed c.cache :: c.procs.erase ProcPC.start }
      else none
  | .act v =>
      if ProcPC.observed v ∈ c.procs then
        match v with
        | none => some { c with procs := ProcPC.toWrite :: c.procs.erase (ProcPC.observed v) }
        | some .pending =>
            if c.inflight then
              some { c with procs := ProcPC.finished :: c.procs.erase (ProcPC.observed v) }
            else
              some { c with inflight := true, schedCount := c.schedCount + 1,
                            procs := ProcPC.finished :: c.procs.erase (ProcPC.observed v) }
        | some .ready =>
            some { c with procs := ProcPC.finished :: c.procs.erase (ProcPC.observed v) }
      else none
  | .write =>
      if ProcPC.toWrite ∈ c.procs then
        some { c with cache := some MatchStatus.pending,
                      procs := ProcPC.toGuard :: c.procs.erase ProcPC.toWrite }
      else none
  | .guard =>
      if ProcPC.toGuard ∈ c.procs then
        if c.inflight then
          some { c with procs := ProcPC.finished :: c.procs.erase ProcPC.toGuard }
        else
          some { c with inflight := true, schedCount := c.schedCount + 1,
                        procs := ProcPC.finished :: c.procs.erase ProcPC.toGuard }
      else none
  | .bgComplete ok =>
      if c.inflight then
        some { c with cache := if ok then some MatchStatus.ready else c.cache,
                      inflight := false }
      else none

/-- Runs a sequence of interleaving actions. -/
def runActs (c : Config) : List SchedAction → Option Config
  | [] => some c
  | a :: rest =>
      match stepF c a with
      | some c' => runActs c' rest
      | none => none

/-- Initial state for `n` concurrent `getMatchOrSchedule` calls on a key
with no cached entry and no in-flight computation. -/
def initConfig (n : Nat) : Config :=
  { cache := none, inflight := false, schedCount := 0, procs := List.replicate n ProcPC.start }

/-- Whether an action is a background-completion step. -/
def SchedAction.isBg : SchedAction → Bool
  | .bgComplete _ => true
  | _ => false

/-- Search criteria accepted by the aggregator and the JSearch client. -/
structure Criteria where
  query : Option String := none
  location : Option String := none
  limit : Option Nat := none
  remoteOnly : Bool := false
  allowRemote : Bool := false
  preferredLocations : List String := []
  datePosted : Option String := none
  sortBy : Option String := none
  order : Option String := none
  page : Option Nat := none
deriving Repr, DecidableEq

/-- JS `a || b` on numbers (0 is falsy). -/
def jsOrNat (a : Option Nat) (b : Nat) : Nat :=
  match a with
  | some n => if n = 0 then b else n
  | none => b

/-- Location alias normalization of the JSearch client
(datasources/jsearch.js `normalizeUserLocation`). -/
def normalizeUserLocation (input : Option String) : String :=
  match input with
  | none => ""
  | some s =>
      let trimmed := jsTrim s
      let normalized := (jsLower trimmed).replace "." ""
      if normalized ∈ ["us", "usa", "united states", "united states of america", "america"] then
        "United States"
      else if normalized ∈ ["uk", "gb", "great britain", "england", "united kingdom"] then
        "United Kingdom"
      else trimmed

/-- Options threaded into `matchesLocation` (part_007:82). -/
structure LocOptions where
  normalizedLower : String
  originalLower : String
  countryCode : Option String
deriving Repr, DecidableEq

/-- Location filter of the aggregator (part_007:82-125). -/
def matchesLocation (job : Job) (o : LocOptions) : Bool :=
  let jobLoc := jsLower (jsOrStr job.location "")
  if o.originalLower.isEmpty && o.normalizedLower.isEmpty then true
  else if jsIncludes jobLoc "remote" then true
  else if !o.originalLower.isEmpty && jsIncludes jobLoc o.originalLower then true
  else if !o.normalizedLower.isEmpty && jsIncludes jobLoc o.normalizedLower then true
  else
    let jobParts := ((jobLoc.splitOn ",").map jsTrim).filter (fun s => !s.isEmpty)
    if jobParts.any (fun part => !o.originalLower.isEmpty && jsIncludes o.originalLower part) then
      true
    else if jobParts.any
        (fun part => !o.normalizedLower.isEmpty && jsIncludes o.normalizedLower part) then
      true
    else
      let jobCountry := jsLower (jsOrStr job.country "")
      let jobCountryCode :=
        match job.countryCode with
        | some cc => if cc.isEmpty then none else some (jsLower cc)
        | none => none
      if !jobCountry.isEmpty && !o.originalLower.isEmpty &&
          (jsIncludes jobCountry o.originalLower || jsIncludes o.originalLower jobCountry) then
        true
      else if !jobCountry.isEmpty && !o.normalizedLower.isEmpty &&
          (jsIncludes jobCountry o.normalizedLower || jsIncludes o.normalizedLower jobCountry) then
        true
      else
        match o.countryCode, jobCountryCode with
        | some cc, some jcc => !cc.isEmpty && jcc = cc
        | _, _ => false

/-- Remote-job predicate (part_007:127-130). -/
def isRemoteJob (job : Job) : Bool :=
  let jobLoc := jsLower (jsOrStr job.location "")
  job.remote || jsIncludes jobLoc "remote" || jsIncludes jobLoc "anywhere"

/-- Which widening step a source fetch belongs to. -/
inductive FetchTag where
  | base
  | relaxedWindow
  | page2
  | page3
  | altLocation (loc : String)
  | similarRole (q : String)
deriving Repr, DecidableEq

/-- External collaborators of the aggregator.  `source` is the JSearch client
(`searchJSearch`, which itself returns `[]` on missing key, cooldown or any
request error); `coolingDown` is `isCoolingDown()`; `toCountryCodeOf`
abstracts the country-state-city lookup of `toCountryCode`;
`expandLocations` abstracts `expandLocationPatterns` (same dataset);
`similarRoles` abstracts the Gemini similar-role call together with its
deterministic term-variation fallback; `attachRating` is the best-effort
Glassdoor decoration; `parseTime` is `new Date(s).getTime()`. -/
structure AggEnv where
  source : Criteria → List Job
  coolingDown : Bool
  toCountryCodeOf : Option String → Option String
  expandLocations : String → List String
  similarRoles : String → List String
  attachRating : Job → Job
  parseTime : String → Int

/-- Per-candidate location match (part_007:132-143). -/
def jobMatchesAnyLocation (env : AggEnv) (job : Job) (locations : List String) : Bool :=
  locations.any (fun location =>
    if location.isEmpty then false
    else
      matchesLocation job
        { normalizedLower := jsLower (normalizeUserLocation (some location))
          originalLower := jsLower location
          countryCode := env.toCountryCodeOf (some location) })

/-- The location/remote filter predicate applied to the combined results and
to similar-role fallback results (part_007:221-241 and 341-361). -/
def passesLocationFilter (env : AggEnv) (wantsRemoteOnly allowRemote : Bool)
    (locationCandidates : List String) (job : Job) : Bool :=
  let isRemote := isRemoteJob job
  if wantsRemoteOnly && !isRemote then false
  else if locationCandidates.isEmpty then (if wantsRemoteOnly then isRemote else true)
  else if jobMatchesAnyLocation env job locationCandidates then true
  else if allowRemote && isRemote then true
  else false

/-- The posting timestamp used for ranking (part_007:379-383). -/
def jobTime (env : AggEnv) (job : Job) : Int :=
  if jsTruthy job.postedAt then env.parseTime (job.postedAt.getD "") else 0

/-- Stable insertion of a job into a list sorted by descending timestamp. -/
def insertByTime (env : AggEnv) (j : Job) : List Job → List Job
  | [] => [j]
  | x :: xs =>
      if jobTime env x ≥ jobTime env j then x :: insertByTime env j xs
      else j :: x :: xs

/-- Stable sort by descending parsed posting timestamp, as the comparator
`timeB - timeA` of part_007:379-383 orders an array. -/
def sortByPostedDesc (env : AggEnv) (jobs : List Job) : List Job :=
  jobs.foldl (fun acc j => insertByTime env j acc) []

/-- Histogram of job sources (part_007:395-399), insertion-ordered. -/
def sourceCounts (jobs : List Job) : List (String × Nat) :=
  jobs.foldl
    (fun acc job =>
      let key := jsOrStr job.source "unknown"
      if acc.any (fun p => p.1 = key) then
        acc.map (fun p => if p.1 = key then (p.1, p.2 + 1) else p)
      else acc ++ [(key, 1)])
    []

/-- Aggregation result metadata (part_007:403-412). -/
structure AggMeta where
  total : Nat
  returned : Nat
  agent : Criteria
  suggestions : List String
  sourceCounts : List (String × Nat)
deriving Repr, DecidableEq

/-- Aggregation result (part_007:403-412). -/
structure AggResult where
  results : List Job
  meta : AggMeta
deriving Repr, DecidableEq

/-- One alternate-location retry iteration (part_007:254-270). -/
def altLocationStep (env : AggEnv) (criteria : Criteria) (appliedLimit : Nat)
    (acc : List Job × List (FetchTag × Criteria)) (altLoc : String) :
    List Job × List (FetchTag × Criteria) :=
  if acc.1.length ≥ appliedLimit then acc
  else
    let altCriteria := { criteria with location := some altLoc,
                                       limit := some (min 5 (appliedLimit - acc.1.length)) }
    let altResults := env.source altCriteria
    let existingIds := acc.1.map (fun j => j.id)
    let newJobs := altResults.filter (fun j => !(existingIds.contains j.id))
    (acc.1 ++ newJobs, acc.2 ++ [(FetchTag.altLocation altLoc, altCriteria)])

/-- One similar-role retry iteration (part_007:329-369). -/
def similarRoleStep (env : AggEnv) (criteria : Criteria) (appliedLimit : Nat)
    (wantsRemoteOnly allowRemote : Bool) (locationCandidates : List String)
    (acc : List Job × List (FetchTag × Criteria)) (similarQuery : String) :
    List Job × List (FetchTag × Criteria) :=
  if acc.1.length ≥ appliedLimit then acc
  else
    let fallbackCriteria := { criteria with query := some similarQuery,
                                            limit := some (min 5 (appliedLimit - acc.1.length)) }
    let fallbackResults := env.source fallbackCriteria
    let fallbackFiltered := fallbackResults.filter
      (passesLocationFilter env wantsRemoteOnly allowRemote locationCandidates)
    let existingIds := acc.1.map (fun j => j.id)
    let newJobs := fallbackFiltered.filter (fun j => !(existingIds.contains j.id))
    (acc.1 ++ newJobs, acc.2 ++ [(FetchTag.similarRole similarQuery, fallbackCriteria)])

/-- The job aggregation pipeline (part_007:145-413), also returning the
ordered log of source fetches it performed.  Single-fetch failures cannot be
raised in this model because `searchJSearch` already converts every request
failure into an empty list. -/
def aggregateJobs (env : AggEnv) (rawCriteria : Criteria) :
    AggResult × List (FetchTag × Criteria) :=
  let appliedLimit := max 1 (min (jsOrNat rawCriteria.limit 50) 60)
  let baseDateWindow := jsOrStr rawCriteria.datePosted "week"
  let criteria := { rawCriteria with
    limit := some appliedLimit
    datePosted := some baseDateWindow
    sortBy := some (jsOrStr rawCriteria.sortBy "date_posted")
    order := some (jsOrStr rawCriteria.order "desc") }
  let baseResults := env.source criteria
  let combined0 := baseResults
  let log0 : List (FetchTag × Criteria) := [(FetchTag.base, criteria)]
  let step1 :=
    if combined0.length < min appliedLimit 10 ∧ baseDateWindow ≠ "month" then
      let relaxedCriteria := { criteria with datePosted := some "month" }
      let relaxedResults := env.source relaxedCriteria
      (uniqueByIdL (combined0 ++ relaxedResults), log0 ++ [(FetchTag.relaxedWindow, relaxedCriteria)])
    else (combined0, log0)
  let step2 :=
    if step1.1.length < min appliedLimit 20 ∧ env.coolingDown = false then
      let page2Criteria := { criteria with page := some 2 }
      let page2 := env.source page2Criteria
      let afterPage2 := uniqueByIdL (step1.1 ++ page2)
      if afterPage2.length < min appliedLimit 30 then
        let page3Criteria := { criteria with page := some 3 }
        let page3 := env.source page3Criteria
        (uniqueByIdL (afterPage2 ++ page3),
          step1.2 ++ [(FetchTag.page2, page2Criteria), (FetchTag.page3, page3Criteria)])
      else (afterPage2, step1.2 ++ [(FetchTag.page2, page2Criteria)])
    else step1
  let combined := uniqueByIdL step2.1
  let jsearchAvailable : Prop := baseResults.length > 0
  let wantsRemoteOnly := criteria.remoteOnly
  let allowRemote := criteria.allowRemote
  let preferredLocations : List String := ((criteria.preferredLocations.map jsTrim).filter
    (fun s => !s.isEmpty))
  let locationCandidates0 : List String :=
    match rawCriteria.location with
    | some l => if l.isEmpty then [] else [l]
    | none => []
  let locationCandidates : List String := preferredLocations.foldl
    (fun acc loc =>
      if acc.any (fun existing => jsLower existing = jsLower loc) then acc else acc ++ [loc])
    locationCandidates0
  let step3 :=
    if locationCandidates.length > 0 ∨ wantsRemoteOnly = true then
      let f := combined.filter
        (passesLocationFilter env wantsRemoteOnly allowRemote locationCandidates)
      if f.length = 0 ∧ jsearchAvailable then
        let expanded :=
          match locationCandidates.headD "" with
          | "" => []
          | primary => env.expandLocations primary
        let suggestions := expanded.take 5
        if env.coolingDown = true then (f, suggestions, step2.2)
        else
          let r := (expanded.take 3).foldl (altLocationStep env criteria appliedLimit)
            (f, step2.2)
          (r.1, suggestions, r.2)
      else (f, [], step2.2)
    else (combined, [], step2.2)
  let step4 :=
    if step3.1.length < 2 ∧ jsTruthy rawCriteria.query = true then
      if ¬jsearchAvailable then (step3.1, step3.2.2)
      else if env.coolingDown = true then (step3.1, step3.2.2)
      else
        let similar := env.similarRoles (rawCriteria.query.getD "")
        (similar.take 2).foldl
          (similarRoleStep env criteria appliedLimit wantsRemoteOnly allowRemote
            locationCandidates)
          (step3.1, step3.2.2)
    else (step3.1, step3.2.2)
  let filtered := uniqueByIdL step4.1
  let sorted := sortByPostedDesc env filtered
  let limited := sorted.take appliedLimit
  let decorated := limited.map (fun job =>
    if jsTruthy job.company then env.attachRating job else job)
  ({ results := decorated
     meta := { total := filtered.length
               returned := decorated.length
               agent := criteria
               suggestions := step3.2.1
               sourceCounts := sourceCounts decorated } }, step4.2)

/-- C2 counterexample: for a job with no id the aggregator's composite
deduplication key differs from the controller's composite cache key. -/
theorem cacheKey_aggregator_mismatch :
    getJobCacheKey
        { title := some "t", company := some "c", location := some "l", postedAt := some "p" } ≠
      uniqueKey
        { title := some "t", company := some "c", location := some "l", postedAt := some "p" } 0 := by
  decide

/-- C2 (amended): key derivation is deterministic and shared by the
normalization and match layers; the aggregator's dedup key agrees with it
exactly when the job carries a truthy id. -/
theorem cacheKey_layers_agree :
    (∀ job : Job, getJobCacheKey job = getJobCacheKey job) ∧
    (∀ job : Job, normalizationJobIdentity job = matchJobIdentity job) ∧
    (∀ (job : Job) (s : String) (n : Nat), job.id = some s → s ≠ "" →
      uniqueKey job n = getJobCacheKey job) := by
  refine ⟨fun _ => rfl, fun _ => rfl, ?_⟩
  intro job s n hid hs
  have hempty : s.isEmpty = false := by
    cases h : s.isEmpty
    · rfl
    · exact absurd ((String.isEmpty_iff s).mp h) hs
  simp [uniqueKey, getJobCacheKey, jsOrStr, jsOrOpt, jsTruthy, hid, hempty]

theorem cacheKey_layers_agree_witness :
    (Job.id { id := some "j-1" } = some "j-1" ∧ "j-1" ≠ "") ∧
      uniqueKey { id := some "j-1" } 0 = getJobCacheKey { id := some "j-1" } :=
  ⟨⟨rfl, by decide⟩,
    (cacheKey_layers_agree.2.2) { id := some "j-1" } "j-1" 0 rfl (by decide)⟩

/-- C7: the preference evaluator never excludes a job, so the exclusion
short-circuit in `computeBaseScore` is dead code. -/
theorem evaluator_never_excludes :
    (∀ (nj raw : Option Job) (signals : Option PreferenceSignals),
        (evaluateJobAgainstPreferences nj raw signals).exclude = false) ∧
    (∀ (profile : Profile) (job : Job) (opts : ScoreOptions),
        (evaluateJobAgainstPreferences (some job) opts.rawJob
            (some (scoreSignals profile opts))).exclude = false ∧
        (computeBaseScore profile job opts).excludedFlag = false) := by
  have hev : ∀ (nj raw : Option Job) (signals : Option PreferenceSignals),
      (evaluateJobAgainstPreferences nj raw signals).exclude = false := by
    intro nj raw signals
    cases signals <;> rfl
  refine ⟨hev, fun profile job opts => ⟨hev _ _ _, ?_⟩⟩
  unfold computeBaseScore computeBaseScoreWithEval
  simp only [hev]
  cases opts.includeDetails <;> simp [BaseScoreResult.excludedFlag]

/-- C8: exactly one experience band, keyed by the job's level, may award 20
points, and it does so iff the profile's years fall in that band; senior at
1 year earns nothing. -/
theorem experience_band_award :
    (∀ (jobLevel : Option String) (profileExp : ℚ),
        experiencePoints jobLevel profileExp =
          (if specExperienceBand jobLevel profileExp then 20 else 0)) ∧
    experiencePoints (some "senior") 1 = 0 := by
  constructor
  · intro jobLevel profileExp
    by_cases h1 : jobLevel = some "intern"
    · by_cases hp : profileExp < 2 <;>
        simp [experiencePoints, specExperienceBand, h1, hp]
    · by_cases h2 : jobLevel = some "junior"
      · by_cases hp : 1 / 2 ≤ profileExp ∧ profileExp < 3 <;>
          simp [experiencePoints, specExperienceBand, h1, h2, hp]
      · by_cases h3 : jobLevel = some "mid"
        · by_cases hp : 2 ≤ profileExp ∧ profileExp < 5 <;>
            simp [experiencePoints, specExperienceBand, h1, h2, h3, hp]
        · by_cases h4 : jobLevel = some "senior"
          · by_cases hp : 4 ≤ profileExp <;>
              simp [experiencePoints, specExperienceBand, h1, h2, h3, h4, hp]
          · by_cases h5 : jobLevel = some "lead"
            · by_cases hp : 6 ≤ profileExp <;>
                simp [experiencePoints, specExperienceBand, h1, h2, h3, h4, h5, hp]
            · simp [experiencePoints, specExperienceBand, h1, h2, h3, h4, h5]
  · decide

/-- C10: a hybrid job mode satisfies every stated work-mode preference
(unrecognized preferences and missing modes are also satisfied), so a hybrid
job receives the +12 work-mode bonus rather than the -18 or -24 penalty for
users preferring remote or onsite. -/
theorem hybrid_satisfies_work_mode_pref :
    (∀ p : Option String, workModeMatchesPreference p (some "hybrid") = true) ∧
    (∀ p m : Option String, workModeMatchesPreference p none = true ∧
        workModeMatchesPreference none m = true) ∧
    (∀ (p : String) (m : Option String), p ≠ "remote" → p ≠ "hybrid" → p ≠ "onsite" →
        p ≠ "on-site" → workModeMatchesPreference (some p) m = true) ∧
    (∀ (s : PreferenceSignals) (nj raw : Option Job),
        (s.workMode = some "remote" ∨ s.workMode = some "onsite" ∨ s.workMode = some "on-site") →
        inferWorkMode nj raw = some "hybrid" →
        workModeSection s (inferWorkMode nj raw) = (12, true, false) ∧
        (evaluateJobAgainstPreferences nj raw (some s)).«matches».workMode = true ∧
        (evaluateJobAgainstPreferences nj raw (some s)).mismatches.workMode = false) := by
  have hhyb : ∀ p : Option String, workModeMatchesPreference p (some "hybrid") = true := by
    intro p
    rcases p with _ | s
    · rfl
    · simp only [workModeMatchesPreference]
      split_ifs <;> simp_all
  refine ⟨hhyb, ?_, ?_, ?_⟩
  · intro p m
    constructor
    · simp [workModeMatchesPreference, jsTruthy]
    · simp [workModeMatchesPreference, jsTruthy]
  · intro p m h1 h2 h3 h4
    simp only [workModeMatchesPreference]
    split_ifs <;> simp_all
  · intro s nj raw hpref hm
    have hw : workModeSection s (inferWorkMode nj raw) = (12, true, false) := by
      rw [hm]
      rcases hpref with h | h | h <;>
        simp [workModeSection, h, jsTruthy, hhyb (some "remote"), hhyb (some "onsite"),
          hhyb (some "on-site"), hhyb s.workMode] <;> decide
    refine ⟨hw, ?_, ?_⟩ <;>
      simp [evaluateJobAgainstPreferences, hw]

/-- C9: every cache operation fails soft: an unavailable connection yields
`none`/`false`, as do empty keys and unparseable stored payloads; the
operations are total, so callers never observe an exception. -/
theorem cache_fails_soft :
    (∀ (α : Type) (c : RedisClient α) (key : String) (v : α) (ttl : Option ℚ),
        c.isOpen = false → (∃ e, c.connectResult = Except.error e) →
        getJson c key = none ∧ (setJson c key v ttl).1 = false ∧
          (deleteKey c key).1 = false) ∧
    (∀ (α : Type) (c : RedisClient α) (v : α) (ttl : Option ℚ),
        getJson c "" = none ∧ (setJson c "" v ttl).1 = false ∧
          (deleteKey c "").1 = false) ∧
    (∀ (α : Type) (c : RedisClient α) (key raw e : String),
        c.store key = some raw → c.parseResult raw = Except.error e →
        getJson c key = none) := by
  refine ⟨?_, ?_, ?_⟩
  · rintro α c key v ttl hopen ⟨e, herr⟩
    have hconn : ensureConnection c = false := by
      simp [ensureConnection, hopen, herr]
    refine ⟨?_, ?_, ?_⟩ <;> simp [getJson, setJson, deleteKey, hconn]
  · intro α c v ttl
    refine ⟨rfl, rfl, rfl⟩
  · intro α c key raw e hstore herr
    unfold getJson
    split_ifs <;> simp [hstore, herr]

/-- A cache client whose connection cannot be established. -/
def downClient : RedisClient Nat :=
  { isOpen := false, connectResult := Except.error "down", store := fun _ => none,
    parseResult := fun _ => Except.error "bad", stringify := fun _ => "0" }

theorem cache_fails_soft_witness :
    (downClient.isOpen = false ∧ ∃ e, downClient.connectResult = Except.error e) ∧
    (getJson downClient "k" = none ∧ (setJson downClient "k" 7 (some 60)).1 = false ∧
      (deleteKey downClient "k").1 = false) :=
  ⟨⟨rfl, ⟨"down", rfl⟩⟩, cache_fails_soft.1 Nat downClient "k" 7 (some 60) rfl ⟨"down", rfl⟩⟩

/-- C1: the base score is always clamped into [0, 100], and an excluding
evaluator verdict short-circuits to score 0 (with `excluded: true` exactly
when details were requested); `computeBaseScore` is this computation at the
actual evaluator verdict. -/
theorem computeBaseScore_bounds :
    ∀ (profile : Profile) (job : Job) (opts : ScoreOptions) (ev : EvalResult),
      (0 ≤ (computeBaseScoreWithEval profile job opts ev).score ∧
        (computeBaseScoreWithEval profile job opts ev).score ≤ 100) ∧
      (ev.exclude = true →
        (computeBaseScoreWithEval profile job opts ev).score = 0 ∧
        (computeBaseScoreWithEval profile job opts ev).excludedFlag = opts.includeDetails) ∧
      computeBaseScore profile job opts =
        computeBaseScoreWithEval profile job opts
          (evaluateJobAgainstPreferences (some job) opts.rawJob
            (some (scoreSignals profile opts))) := by
  intro profile job opts ev
  refine ⟨?_, ?_, rfl⟩
  · cases hex : ev.exclude <;> cases hinc : opts.includeDetails <;>
      simp only [computeBaseScoreWithEval, hex, hinc, Bool.false_eq_true, if_false, if_true,
        BaseScoreResult.score] <;>
      first
        | exact ⟨le_refl 0, by norm_num⟩
        | exact ⟨le_min (by norm_num) (le_max_left 0 _), min_le_left _ _⟩
  · intro hex
    cases hinc : opts.includeDetails <;>
      simp [computeBaseScoreWithEval, hex, hinc, BaseScoreResult.score,
        BaseScoreResult.excludedFlag]

/-- An evaluator verdict that signals exclusion (reachable only through the
verdict parameter, never from the actual evaluator). -/
def excludingVerdict : EvalResult :=
  { adjustment := 0, exclude := true, «matches» := {}, mismatches := {}, workMode := none }

theorem computeBaseScore_bounds_witness :
    excludingVerdict.exclude = true ∧
    ((computeBaseScoreWithEval {} {} {} excludingVerdict).score = 0 ∧
      (computeBaseScoreWithEval {} {} {} excludingVerdict).excludedFlag =
        ScoreOptions.includeDetails {}) :=
  ⟨rfl, (computeBaseScore_bounds {} {} {} excludingVerdict).2.1 rfl⟩

/-- Signals of a user who strictly prefers remote work. -/
def remoteSignals : PreferenceSignals :=
  { workMode := some "remote" }

/-- A job normalized as hybrid. -/
def hybridNJ : Option Job :=
  some { normalized := some { work_mode := some "hybrid" } }

theorem hybrid_satisfies_work_mode_pref_witness :
    ((remoteSignals.workMode = some "remote" ∨ remoteSignals.workMode = some "onsite" ∨
        remoteSignals.workMode = some "on-site") ∧
      inferWorkMode hybridNJ none = some "hybrid") ∧
    ((workModeSection remoteSignals (inferWorkMode hybridNJ none) = (12, true, false) ∧
      (evaluateJobAgainstPreferences hybridNJ none (some remoteSignals)).«matches».workMode =
        true ∧
      (evaluateJobAgainstPreferences hybridNJ none (some remoteSignals)).mismatches.workMode =
        false) ∧
      workModeMatchesPreference (some "flexible") (some "onsite") = true) :=
  ⟨⟨Or.inl rfl, by decide⟩,
    ⟨hybrid_satisfies_work_mode_pref.2.2.2 remoteSignals hybridNJ none (Or.inl rfl) (by decide),
      hybrid_satisfies_work_mode_pref.2.2.1 "flexible" (some "onsite") (by decide) (by decide)
        (by decide) (by decide)⟩⟩

/-- Keys of a job list where each element's composite ordinal is its position
counted from `n`. -/
def outKeysFrom (n : Nat) (l : List Job) : List String :=
  (List.enumFrom n l).map (fun p => uniqueKey p.2 p.1)

theorem uniqueByIdGo_eq_trace :
    ∀ (jobs : List (Option Job)) (seen : List String) (result : List Job),
      uniqueByIdGo seen result jobs =
        result ++ ((uniqueTraceGo seen result.length jobs).filter (fun e => e.kept)).map
          (fun e => e.job)
  | [], seen, result => by simp [uniqueByIdGo, uniqueTraceGo]
  | none :: rest, seen, result => by
      simpa [uniqueByIdGo, uniqueTraceGo] using uniqueByIdGo_eq_trace rest seen result
  | some j :: rest, seen, result => by
      by_cases h : uniqueKey j result.length ∈ seen
      · simpa [uniqueByIdGo, uniqueTraceGo, h] using uniqueByIdGo_eq_trace rest seen result
      · have hrec := uniqueByIdGo_eq_trace rest (uniqueKey j result.length :: seen) (result ++ [j])
        simp [uniqueByIdGo, uniqueTraceGo, h, hrec, List.length_append, List.append_assoc]

theorem traceKeptKeys_nodup :
    ∀ (jobs : List (Option Job)) (seen : List String) (len : Nat),
      (((uniqueTraceGo seen len jobs).filter (fun e => e.kept)).map entryKey).Nodup ∧
      ∀ k ∈ ((uniqueTraceGo seen len jobs).filter (fun e => e.kept)).map entryKey, k ∉ seen
  | [], seen, len => by simp [uniqueTraceGo]
  | none :: rest, seen, len => traceKeptKeys_nodup rest seen len
  | some j :: rest, seen, len => by
      by_cases h : uniqueKey j len ∈ seen
      · simpa [uniqueTraceGo, h] using traceKeptKeys_nodup rest seen len
      · have hrec := traceKeptKeys_nodup rest (uniqueKey j len :: seen) (len + 1)
        simp only [uniqueTraceGo, h, if_neg, List.filter_cons_of_pos, List.map_cons]
        constructor
        · refine List.Nodup.cons ?_ hrec.1
          intro hkmem
          exact (hrec.2 _ hkmem) (List.mem_cons_self _ _)
        · intro k hk
          rcases List.mem_cons.mp hk with hk | hk
          · subst hk
            simpa [entryKey] using h
          · intro hks
            exact (hrec.2 k hk) (List.mem_cons_of_mem _ hks)

theorem traceKept_keys_eq_outKeysFrom :
    ∀ (jobs : List (Option Job)) (seen : List String) (len : Nat),
      ((uniqueTraceGo seen len jobs).filter (fun e => e.kept)).map entryKey =
        outKeysFrom len (((uniqueTraceGo seen len jobs).filter (fun e => e.kept)).map
          (fun e => e.job))
  | [], seen, len => by simp [uniqueTraceGo, outKeysFrom]
  | none :: rest, seen, len => traceKept_keys_eq_outKeysFrom rest seen len
  | some j :: rest, seen, len => by
      by_cases h : uniqueKey j len ∈ seen
      · simpa [uniqueTraceGo, h] using traceKept_keys_eq_outKeysFrom rest seen len
      · have hrec := traceKept_keys_eq_outKeysFrom rest (uniqueKey j len :: seen) (len + 1)
        simp [uniqueTraceGo, h, outKeysFrom, List.enumFrom_cons, entryKey, hrec]

theorem traceKept_sublist :
    ∀ (jobs : List (Option Job)) (seen : List String) (len : Nat),
      List.Sublist
        (((uniqueTraceGo seen len jobs).filter (fun e => e.kept)).map (fun e => e.job))
        (jobs.filterMap id)
  | [], seen, len => by simp [uniqueTraceGo]
  | none :: rest, seen, len => by
      simpa [uniqueTraceGo] using traceKept_sublist rest seen len
  | some j :: rest, seen, len => by
      by_cases h : uniqueKey j len ∈ seen
      · simp only [uniqueTraceGo, h, if_pos, List.filter_cons_of_neg, List.filterMap_cons_some,
          id]
        exact (traceKept_sublist rest seen len).cons j
      · simp only [uniqueTraceGo, h, if_neg, List.filter_cons_of_pos, List.map_cons,
          List.filterMap_cons_some, id]
        exact (traceKept_sublist rest (uniqueKey j len :: seen) (len + 1)).cons₂ j

theorem trace_dropped_has_kept_ancestor :
    ∀ (jobs : List (Option Job)) (seen : List String) (len : Nat)
      (l1 : List TraceEntry) (e : TraceEntry) (l2 : List TraceEntry),
      uniqueTraceGo seen len jobs = l1 ++ e :: l2 → e.kept = false →
      entryKey e ∈ seen ∨ ∃ e2, e2 ∈ l1 ∧ e2.kept = true ∧ entryKey e2 = entryKey e
  | [], seen, len, l1, e, l2, h, _ => by
      cases l1 <;> simp [uniqueTraceGo] at h
  | none :: rest, seen, len, l1, e, l2, h, hk => by
      exact trace_dropped_has_kept_ancestor rest seen len l1 e l2 (by simpa [uniqueTraceGo] using h) hk
  | some j :: rest, seen, len, l1, e, l2, h, hk => by
      by_cases hs : uniqueKey j len ∈ seen
      · unfold uniqueTraceGo at h
        rw [if_pos hs] at h
        cases l1 with
        | nil =>
            simp only [List.nil_append, List.cons.injEq] at h
            left
            rw [← h.1]
            simpa [entryKey] using hs
        | cons a l1' =>
            simp only [List.cons_append, List.cons.injEq] at h
            rcases trace_dropped_has_kept_ancestor rest seen len l1' e l2 h.2 hk with
              hl | ⟨e2, he2, hke, hkey⟩
            · exact Or.inl hl
            · exact Or.inr ⟨e2, List.mem_cons_of_mem _ he2, hke, hkey⟩
      · unfold uniqueTraceGo at h
        rw [if_neg hs] at h
        cases l1 with
        | nil =>
            simp only [List.nil_append, List.cons.injEq] at h
            exfalso
            rw [← h.1] at hk
            simp at hk
        | cons a l1' =>
            simp only [List.cons_append, List.cons.injEq] at h
            rcases trace_dropped_has_kept_ancestor rest (uniqueKey j len :: seen) (len + 1)
                l1' e l2 h.2 hk with hl | ⟨e2, he2, hke, hkey⟩
            · rcases List.mem_cons.mp hl with heq | hseen
              · refine Or.inr ⟨a, List.mem_cons_self _ _, ?_, ?_⟩
                · rw [← h.1]
                · rw [← h.1]
                  simpa [entryKey] using heq.symm
              · exact Or.inl hseen
            · exact Or.inr ⟨e2, List.mem_cons_of_mem _ he2, hke, hkey⟩

/-- C6: `uniqueById` assigns each output element a distinct identity (its id,
or the composite fallback with its output ordinal), keeps only jobs from the
input in first-seen order, and drops an entry only when an earlier kept entry
carries the same identity. -/
theorem uniqueById_dedup_spec :
    ∀ jobs : List (Option Job),
      (outKeys (uniqueById jobs)).Nodup ∧
      List.Sublist (uniqueById jobs) (jobs.filterMap id) ∧
      (∀ (l1 : List TraceEntry) (e : TraceEntry) (l2 : List TraceEntry),
        uniqueTrace jobs = l1 ++ e :: l2 → e.kept = false →
        ∃ e2, e2 ∈ l1 ∧ e2.kept = true ∧ entryKey e2 = entryKey e) := by
  intro jobs
  have hgo : uniqueById jobs =
      ((uniqueTraceGo [] 0 jobs).filter (fun e => e.kept)).map (fun e => e.job) := by
    simpa [uniqueById] using uniqueByIdGo_eq_trace jobs [] []
  refine ⟨?_, ?_, ?_⟩
  · rw [hgo]
    have hkeys := traceKept_keys_eq_outKeysFrom jobs [] 0
    have hnodup := (traceKeptKeys_nodup jobs [] 0).1
    have houtk : outKeys
        (((uniqueTraceGo [] 0 jobs).filter (fun e => e.kept)).map (fun e => e.job)) =
        outKeysFrom 0
          (((uniqueTraceGo [] 0 jobs).filter (fun e => e.kept)).map (fun e => e.job)) := rfl
    rw [houtk, ← hkeys]
    exact hnodup
  · rw [hgo]
    exact traceKept_sublist jobs [] 0
  · intro l1 e l2 h hk
    rcases trace_dropped_has_kept_ancestor jobs [] 0 l1 e l2 h hk with hl | hr
    · simp at hl
    · exact hr

theorem uniqueById_dedup_spec_witness :
    (uniqueTrace [some { id := some "x" }, some { id := some "x" }] =
        [⟨{ id := some "x" }, 0, true⟩] ++ ⟨{ id := some "x" }, 1, false⟩ :: [] ∧
      TraceEntry.kept ⟨{ id := some "x" }, 1, false⟩ = false) ∧
    ∃ e2, e2 ∈ [(⟨{ id := some "x" }, 0, true⟩ : TraceEntry)] ∧ e2.kept = true ∧
      entryKey e2 = entryKey ⟨{ id := some "x" }, 1, false⟩ :=
  ⟨⟨by decide, rfl⟩,
    (uniqueById_dedup_spec [some { id := some "x" }, some { id := some "x" }]).2.2
      [⟨{ id := some "x" }, 0, true⟩] ⟨{ id := some "x" }, 1, false⟩ [] (by decide) rfl⟩

/-- Invariant of the scheduling protocol while no background completion has
run: the schedule count mirrors the in-flight flag; with an empty cache no
call has passed its placeholder write and nothing is in flight; with a
non-empty cache something is in flight or a writer still has to run its
pending-set check. -/
def SchedInv (c : Config) : Prop :=
  (c.schedCount = if c.inflight then 1 else 0) ∧
  (c.cache = none →
    c.inflight = false ∧
    ∀ pc ∈ c.procs, pc = ProcPC.start ∨ pc = ProcPC.observed none ∨ pc = ProcPC.toWrite) ∧
  (c.cache ≠ none → c.inflight = true ∨ ProcPC.toGuard ∈ c.procs)

theorem stepF_procs_length (c c' : Config) (a : SchedAction) (h : stepF c a = some c') :
    c'.procs.length = c.procs.length := by
  cases a with
  | read =>
      simp only [stepF] at h
      by_cases hm : ProcPC.start ∈ c.procs
      · rw [if_pos hm] at h
        cases h
        have := List.length_pos_of_mem hm
        simp [List.length_erase_of_mem hm]
        omega
      · rw [if_neg hm] at h
        cases h
  | act v =>
      simp only [stepF] at h
      by_cases hm : ProcPC.observed v ∈ c.procs
      · rw [if_pos hm] at h
        have hpos := List.length_pos_of_mem hm
        cases v with
        | none =>
            cases h
            simp [List.length_erase_of_mem hm]
            omega
        | some st =>
            cases st with
            | pending =>
                by_cases hi : c.inflight = true
                · rw [if_pos hi] at h
                  cases h
                  simp [List.length_erase_of_mem hm]
                  omega
                · rw [if_neg hi] at h
                  cases h
                  simp [List.length_erase_of_mem hm]
                  omega
            | ready =>
                cases h
                simp [List.length_erase_of_mem hm]
                omega
      · rw [if_neg hm] at h
        cases v with
        | none => cases h
        | some st => cases st <;> simp at h
  | write =>
      simp only [stepF] at h
      by_cases hm : ProcPC.toWrite ∈ c.procs
      · rw [if_pos hm] at h
        cases h
        have := List.length_pos_of_mem hm
        simp [List.length_erase_of_mem hm]
        omega
      · rw [if_neg hm] at h
        cases h
  | guard =>
      simp only [stepF] at h
      by_cases hm : ProcPC.toGuard ∈ c.procs
      · rw [if_pos hm] at h
        have := List.length_pos_of_mem hm
        by_cases hi : c.inflight = true
        · rw [if_pos hi] at h
          cases h
          simp [List.length_erase_of_mem hm]
          omega
        · rw [if_neg hi] at h
          cases h
          simp [List.length_erase_of_mem hm]
          omega
      · rw [if_neg hm] at h
        cases h
  | bgComplete ok =>
      simp only [stepF] at h
      by_cases hi : c.inflight = true
      · rw [if_pos hi] at h
        cases h
        rfl
      · rw [if_neg hi] at h
        cases h

theorem stepF_preserves_inv (c c' : Config) (a : SchedAction) (hbg : a.isBg = false)
    (h : stepF c a = some c') (hinv : SchedInv c) : SchedInv c' := by
  obtain ⟨h1, h2, h3⟩ := hinv
  cases a with
  | read =>
      simp only [stepF] at h
      by_cases hm : ProcPC.start ∈ c.procs
      · rw [if_pos hm] at h
        cases h
        refine ⟨h1, ?_, ?_⟩
        · intro hc
          obtain ⟨hif, hall⟩ := h2 hc
          refine ⟨hif, ?_⟩
          intro pc hpc
          rcases List.mem_cons.mp hpc with rfl | hpc
          · rw [hc]
            exact Or.inr (Or.inl rfl)
          · exact hall pc (List.erase_subset _ _ hpc)
        · intro hc
          rcases h3 hc with hi | hg
          · exact Or.inl hi
          · exact Or.inr (List.mem_cons_of_mem _
              ((List.mem_erase_of_ne (by simp)).mpr hg))
      · rw [if_neg hm] at h
        cases h
  | act v =>
      simp only [stepF] at h
      by_cases hm : ProcPC.observed v ∈ c.procs
      · rw [if_pos hm] at h
        cases v with
        | none =>
            cases h
            refine ⟨h1, ?_, ?_⟩
            · intro hc
              obtain ⟨hif, hall⟩ := h2 hc
              refine ⟨hif, ?_⟩
              intro pc hpc
              rcases List.mem_cons.mp hpc with rfl | hpc
              · exact Or.inr (Or.inr rfl)
              · exact hall pc (List.erase_subset _ _ hpc)
            · intro hc
              rcases h3 hc with hi | hg
              · exact Or.inl hi
              · exact Or.inr (List.mem_cons_of_mem _
                  ((List.mem_erase_of_ne (by simp)).mpr hg))
        | some st =>
            cases st with
            | pending =>
                have hcasome : c.cache ≠ none := by
                  intro hc
                  obtain ⟨_, hall⟩ := h2 hc
                  rcases hall _ hm with h' | h' | h' <;> simp at h'
                by_cases hi : c.inflight = true
                · rw [if_pos hi] at h
                  cases h
                  refine ⟨h1, ?_, ?_⟩
                  · intro hc
                    exact absurd hc hcasome
                  · intro _
                    exact Or.inl hi
                · rw [if_neg hi] at h
                  cases h
                  refine ⟨?_, ?_, ?_⟩
                  · have : c.inflight = false := by
                      cases hcc : c.inflight
                      · rfl
                      · exact absurd hcc hi
                    simp [h1, this]
                  · intro hc
                    exact absurd hc hcasome
                  · intro _
                    exact Or.inl rfl
            | ready =>
                have hcasome : c.cache ≠ none := by
                  intro hc
                  obtain ⟨_, hall⟩ := h2 hc
                  rcases hall _ hm with h' | h' | h' <;> simp at h'
                cases h
                refine ⟨h1, ?_, ?_⟩
                · intro hc
                  exact absurd hc hcasome
                · intro hc
                  rcases h3 hc with hi | hg
                  · exact Or.inl hi
                  · exact Or.inr (List.mem_cons_of_mem _
                      ((List.mem_erase_of_ne (by simp)).mpr hg))
      · rw [if_neg hm] at h
        cases v with
        | none => cases h
        | some st => cases st <;> cases h
  | write =>
      simp only [stepF] at h
      by_cases hm : ProcPC.toWrite ∈ c.procs
      · rw [if_pos hm] at h
        cases h
        refine ⟨h1, ?_, ?_⟩
        · intro hc
          simp at hc
        · intro _
          exact Or.inr (List.mem_cons_self _ _)
      · rw [if_neg hm] at h
        cases h
  | guard =>
      simp only [stepF] at h
      by_cases hm : ProcPC.toGuard ∈ c.procs
      · rw [if_pos hm] at h
        have hcasome : c.cache ≠ none := by
          intro hc
          obtain ⟨_, hall⟩ := h2 hc
          rcases hall _ hm with h' | h' | h' <;> simp at h'
        by_cases hi : c.inflight = true
        · rw [if_pos hi] at h
          cases h
          refine ⟨h1, ?_, ?_⟩
          · intro hc
            exact absurd hc hcasome
          · intro _
            exact Or.inl hi
        · rw [if_neg hi] at h
          cases h
          refine ⟨?_, ?_, ?_⟩
          · have : c.inflight = false := by
              cases hcc : c.inflight
              · rfl
              · exact absurd hcc hi
            simp [h1, this]
          · intro hc
            exact absurd hc hcasome
          · intro _
            exact Or.inl rfl
      · rw [if_neg hm] at h
        cases h
  | bgComplete ok =>
      simp [SchedAction.isBg] at hbg

theorem runActs_preserves_inv :
    ∀ (acts : List SchedAction) (c c' : Config),
      (∀ a ∈ acts, a.isBg = false) → runActs c acts = some c' → SchedInv c → SchedInv c'
  | [], c, c', _, h, hinv => by
      cases h
      exact hinv
  | a :: rest, c, c', hnb, h, hinv => by
      simp only [runActs] at h
      cases hstep : stepF c a with
      | none => rw [hstep] at h; cases h
      | some c1 =>
          rw [hstep] at h
          exact runActs_preserves_inv rest c1 c'
            (fun x hx => hnb x (List.mem_cons_of_mem _ hx)) h
            (stepF_preserves_inv c c1 a (hnb a (List.mem_cons_self _ _)) hstep hinv)

theorem runActs_procs_length :
    ∀ (acts : List SchedAction) (c c' : Config),
      runActs c acts = some c' → c'.procs.length = c.procs.length
  | [], c, c', h => by
      cases h
      rfl
  | a :: rest, c, c', h => by
      simp only [runActs] at h
      cases hstep : stepF c a with
      | none => rw [hstep] at h; cases h
      | some c1 =>
          rw [hstep] at h
          rw [runActs_procs_length rest c1 c' h]
          exact stepF_procs_length c c1 a hstep

/-- C3: with no background completion in between, any interleaving of
concurrent `getMatchOrSchedule` calls for one key schedules at most one
background computation, exactly one once every call has finished; and a
background completion always clears the in-flight flag, on success and on
failure alike. -/
theorem single_inflight_schedule :
    ∀ (n : Nat) (acts : List SchedAction) (c' : Config),
      (∀ a ∈ acts, a.isBg = false) →
      runActs (initConfig n) acts = some c' →
      (c'.schedCount ≤ 1 ∧
        ((∀ pc ∈ c'.procs, pc = ProcPC.finished) → 1 ≤ n → c'.schedCount = 1)) ∧
      (∀ (c : Config) (ok : Bool) (c2 : Config),
        stepF c (SchedAction.bgComplete ok) = some c2 → c2.inflight = false) := by
  intro n acts c' hnb hrun
  have hinv0 : SchedInv (initConfig n) := by
    refine ⟨rfl, fun _ => ⟨rfl, ?_⟩, fun hc => absurd rfl hc⟩
    intro pc hpc
    exact Or.inl (List.eq_of_mem_replicate hpc)
  obtain ⟨h1, h2, h3⟩ := runActs_preserves_inv acts _ _ hnb hrun hinv0
  refine ⟨⟨?_, ?_⟩, ?_⟩
  · rw [h1]
    split <;> norm_num
  · intro hfin hn
    have hlen : c'.procs.length = n := by
      simpa [initConfig] using runActs_procs_length acts _ _ hrun
    have hne : c'.procs ≠ [] := by
      intro he
      rw [he] at hlen
      simp at hlen
      omega
    obtain ⟨pc0, hpc0⟩ := List.exists_mem_of_ne_nil _ hne
    cases hc : c'.cache with
    | none =>
        obtain ⟨_, hall⟩ := h2 hc
        have hmem := hall pc0 hpc0
        have hf := hfin pc0 hpc0
        rw [hf] at hmem
        rcases hmem with h' | h' | h' <;> cases h'
    | some e =>
        rcases h3 (by simp [hc]) with hi | hg
        · rw [h1, hi]
          rfl
        · have := hfin _ hg
          cases this
  · intro c ok c2 hstep
    simp only [stepF] at hstep
    by_cases hi : c.inflight = true
    · rw [if_pos hi] at hstep
      cases hstep
      rfl
    · rw [if_neg hi] at hstep
      cases hstep

/-- Six interleaved steps of two concurrent calls: the second call observes
the first call's pending placeholder and is blocked by the in-flight guard. -/
def c3Acts : List SchedAction :=
  [SchedAction.read, SchedAction.act none, SchedAction.write, SchedAction.guard,
   SchedAction.read, SchedAction.act (some MatchStatus.pending)]

/-- The final configuration of `c3Acts` from two fresh calls. -/
def c3Final : Config :=
  { cache := some MatchStatus.pending, inflight := true, schedCount := 1,
    procs := [ProcPC.finished, ProcPC.finished] }

theorem single_inflight_schedule_witness :
    ((∀ a ∈ c3Acts, a.isBg = false) ∧ runActs (initConfig 2) c3Acts = some c3Final ∧
      (∀ pc ∈ c3Final.procs, pc = ProcPC.finished) ∧ 1 ≤ 2) ∧
    ((c3Final.schedCount ≤ 1 ∧
        ((∀ pc ∈ c3Final.procs, pc = ProcPC.finished) → 1 ≤ 2 → c3Final.schedCount = 1)) ∧
      (∀ (c : Config) (ok : Bool) (c2 : Config),
        stepF c (SchedAction.bgComplete ok) = some c2 → c2.inflight = false)) :=
  ⟨⟨by decide, by decide, by decide, by decide⟩,
    single_inflight_schedule 2 c3Acts c3Final (by decide) (by decide)⟩

theorem stepF_preserves_ready (c c' : Config) (a : SchedAction) (h : stepF c a = some c')
    (hca : c.cache = some MatchStatus.ready)
    (hpr : ∀ pc ∈ c.procs, pc ≠ ProcPC.toWrite ∧ pc ≠ ProcPC.observed none) :
    c'.cache = some MatchStatus.ready ∧
      ∀ pc ∈ c'.procs, pc ≠ ProcPC.toWrite ∧ pc ≠ ProcPC.observed none := by
  cases a with
  | read =>
      simp only [stepF] at h
      by_cases hm : ProcPC.start ∈ c.procs
      · rw [if_pos hm] at h
        cases h
        refine ⟨hca, ?_⟩
        intro pc hpc
        rcases List.mem_cons.mp hpc with rfl | hpc
        · rw [hca]
          exact ⟨by simp, by simp⟩
        · exact hpr pc (List.erase_subset _ _ hpc)
      · rw [if_neg hm] at h
        cases h
  | act v =>
      simp only [stepF] at h
      by_cases hm : ProcPC.observed v ∈ c.procs
      · cases v with
        | none => exact absurd rfl (hpr _ hm).2
        | some st =>
            rw [if_pos hm] at h
            have hrest : ∀ pc', pc' ∈ ProcPC.finished :: c.procs.erase (ProcPC.observed (some st)) →
                pc' ≠ ProcPC.toWrite ∧ pc' ≠ ProcPC.observed none := by
              intro pc' hpc'
              rcases List.mem_cons.mp hpc' with rfl | hpc'
              · exact ⟨by simp, by simp⟩
              · exact hpr pc' (List.erase_subset _ _ hpc')
            cases st with
            | pending =>
                by_cases hi : c.inflight = true
                · rw [if_pos hi] at h
                  cases h
                  exact ⟨hca, hrest⟩
                · rw [if_neg hi] at h
                  cases h
                  exact ⟨hca, hrest⟩
            | ready =>
                cases h
                exact ⟨hca, hrest⟩
      · rw [if_neg hm] at h
        cases v with
        | none => cases h
        | some st => cases st <;> cases h
  | write =>
      simp only [stepF] at h
      by_cases hm : ProcPC.toWrite ∈ c.procs
      · exact absurd rfl (hpr _ hm).1
      · rw [if_neg hm] at h
        cases h
  | guard =>
      simp only [stepF] at h
      by_cases hm : ProcPC.toGuard ∈ c.procs
      · rw [if_pos hm] at h
        have hrest : ∀ pc', pc' ∈ ProcPC.finished :: c.procs.erase ProcPC.toGuard →
            pc' ≠ ProcPC.toWrite ∧ pc' ≠ ProcPC.observed none := by
          intro pc' hpc'
          rcases List.mem_cons.mp hpc' with rfl | hpc'
          · exact ⟨by simp, by simp⟩
          · exact hpr pc' (List.erase_subset _ _ hpc')
        by_cases hi : c.inflight = true
        · rw [if_pos hi] at h
          cases h
          exact ⟨hca, hrest⟩
        · rw [if_neg hi] at h
          cases h
          exact ⟨hca, hrest⟩
      · rw [if_neg hm] at h
        cases h
  | bgComplete ok =>
      simp only [stepF] at h
      by_cases hi : c.inflight = true
      · rw [if_pos hi] at h
        cases h
        refine ⟨?_, hpr⟩
        cases ok <;> simp [hca]
      · rw [if_neg hi] at h
        cases h

/-- C4 (amended): once the cached match is `ready` it stays `ready` under
every further interleaving, provided no concurrently started call has
already observed the key as absent without yet landing its placeholder
write; the background completion write itself always carries `ready`. -/
theorem ready_stable_without_stale_writer :
    ∀ (acts : List SchedAction) (c c' : Config),
      runActs c acts = some c' →
      c.cache = some MatchStatus.ready →
      (∀ pc ∈ c.procs, pc ≠ ProcPC.toWrite ∧ pc ≠ ProcPC.observed none) →
      c'.cache = some MatchStatus.ready
  | [], c, c', h, hca, _ => by
      cases h
      exact hca
  | a :: rest, c, c', h, hca, hpr => by
      simp only [runActs] at h
      cases hstep : stepF c a with
      | none => rw [hstep] at h; cases h
      | some c1 =>
          rw [hstep] at h
          obtain ⟨hca1, hpr1⟩ := stepF_preserves_ready c c1 a hstep hca hpr
          exact ready_stable_without_stale_writer rest c1 c' h hca1 hpr1

/-- A state with a ready entry, one poller about to read, and no stale writer. -/
def c4ReadyCfg : Config :=
  { cache := some MatchStatus.ready, inflight := false, schedCount := 1,
    procs := [ProcPC.start] }

/-- The state after the poller of `c4ReadyCfg` has read and returned. -/
def c4DoneCfg : Config :=
  { cache := some MatchStatus.ready, inflight := false, schedCount := 1,
    procs := [ProcPC.finished] }

theorem ready_stable_without_stale_writer_witness :
    (runActs c4ReadyCfg [SchedAction.read, SchedAction.act (some MatchStatus.ready)] =
        some c4DoneCfg ∧
      c4ReadyCfg.cache = some MatchStatus.ready ∧
      (∀ pc ∈ c4ReadyCfg.procs, pc ≠ ProcPC.toWrite ∧ pc ≠ ProcPC.observed none)) ∧
    c4DoneCfg.cache = some MatchStatus.ready :=
  ⟨⟨by decide, rfl, by decide⟩,
    ready_stable_without_stale_writer
      [SchedAction.read, SchedAction.act (some MatchStatus.ready)] c4ReadyCfg
      c4DoneCfg (by decide) rfl (by decide)⟩

/-- C4 counterexample: a valid interleaving in which the cached status is
`ready` (and is returned as such to a concurrent reader), after which the
delayed placeholder write of a call that had read the key as absent
overwrites it back to `pending`, and a later read observes `pending`. -/
theorem ready_overwritten_by_stale_pending :
    (runActs (initConfig 4)
        [SchedAction.read, SchedAction.read, SchedAction.act none, SchedAction.write,
         SchedAction.guard, SchedAction.bgComplete true, SchedAction.read,
         SchedAction.act (some MatchStatus.ready)]).map Config.cache =
      some (some MatchStatus.ready) ∧
    (runActs (initConfig 4)
        [SchedAction.read, SchedAction.read, SchedAction.act none, SchedAction.write,
         SchedAction.guard, SchedAction.bgComplete true, SchedAction.read,
         SchedAction.act (some MatchStatus.ready), SchedAction.act none, SchedAction.write,
         SchedAction.read]).map Config.cache =
      some (some MatchStatus.pending) ∧
    (runActs (initConfig 4)
        [SchedAction.read, SchedAction.read, SchedAction.act none, SchedAction.write,
         SchedAction.guard, SchedAction.bgComplete true, SchedAction.read,
         SchedAction.act (some MatchStatus.ready), SchedAction.act none, SchedAction.write,
         SchedAction.read]).map
        (fun c => decide (ProcPC.observed (some MatchStatus.pending) ∈ c.procs)) =
      some true := by
  decide

/-- C5: when every source fetch returns no results (and the source is not
cooling down, with the default date window), aggregation performs exactly the
base fetch, one relaxed-window refetch, and the page-2 and page-3 fetches —
zero alternate-location and zero similar-role retries — and terminates with
empty results and meta.total = 0. -/
theorem fallback_widening_bounded :
    ∀ (env : AggEnv) (raw : Criteria),
      (∀ c, env.source c = []) → env.coolingDown = false → raw.datePosted = none →
      (aggregateJobs env raw).1.results = [] ∧
      (aggregateJobs env raw).1.meta.total = 0 ∧
      ((aggregateJobs env raw).2.map Prod.fst) =
        [FetchTag.base, FetchTag.relaxedWindow, FetchTag.page2, FetchTag.page3] := by
  intro env raw hs hc hd
  have h1 : 0 < max 1 (min (jsOrNat raw.limit 50) 60) :=
    Nat.lt_of_lt_of_le (by norm_num) (Nat.le_max_left _ _)
  have h10 : (0:ℕ) < (1 ⊔ jsOrNat raw.limit 50 ⊓ 60) ⊓ 10 := lt_min h1 (by norm_num)
  have h20 : (0:ℕ) < (1 ⊔ jsOrNat raw.limit 50 ⊓ 60) ⊓ 20 := lt_min h1 (by norm_num)
  have h30 : (0:ℕ) < (1 ⊔ jsOrNat raw.limit 50 ⊓ 60) ⊓ 30 := lt_min h1 (by norm_num)
  simp [aggregateJobs, hs, hd, hc, h10, h20, h30, uniqueByIdL, uniqueById, uniqueByIdGo,
    sortByPostedDesc, sourceCounts, jsOrStr, jsTruthy]

/-- An aggregator environment whose job source always returns nothing. -/
def aggEnvEmpty : AggEnv :=
  { source := fun _ => [], coolingDown := false, toCountryCodeOf := fun _ => none,
    expandLocations := fun _ => [], similarRoles := fun _ => [], attachRating := id,
    parseTime := fun _ => 0 }

theorem fallback_widening_bounded_witness :
    ((∀ c, aggEnvEmpty.source c = []) ∧ aggEnvEmpty.coolingDown = false ∧
      Criteria.datePosted {} = none) ∧
    ((aggregateJobs aggEnvEmpty {}).1.results = [] ∧
      (aggregateJobs aggEnvEmpty {}).1.meta.total = 0 ∧
      ((aggregateJobs aggEnvEmpty {}).2.map Prod.fst) =
        [FetchTag.base, FetchTag.relaxedWindow, FetchTag.page2, FetchTag.page3]) :=
  ⟨⟨fun _ => rfl, rfl, rfl⟩, fallback_widening_bounded aggEnvEmpty {} (fun _ => rfl) rfl rfl⟩
